import Mathlib

/-!
Shallow embedding of the StudyTracker task repository and statistics engine
(src/taskManager.js, with helpers from src/ui.js and src/storage.js), together
with proofs about its specified behaviour.

Modelling conventions, fixed once for the whole file:

* Timestamps and calendar dates are integers counting days.  `Utils.getTodayString`
  yields a date-only string and `new Date` parses such a string at UTC midnight,
  so the millisecond difference of two such dates divided by 86400000 is exactly
  the difference of their day numbers.  `completedAt` is an ISO timestamp string
  in the source; `completedAt && completedAt.startsWith(dateStr)` tests that the
  (non-null, hence truthy) timestamp falls on a given calendar day, modelled as
  equality of day numbers.
* A JavaScript object field that may be absent is an `Option`; a patch field
  absent from a patch object is `none`, and the spread `...updates` overwrites
  exactly the present fields.
* `Array.prototype.sort` is modelled as a stable comparison sort in which an
  element `a` is placed before `b` exactly when `compare a b ≤ 0`, realised as
  `List.insertionSort` with the relation `fun a b => compare a b ≤ 0`.  For a
  consistent comparator this coincides with every stable sort, in particular
  with the sort ECMAScript specifies.
* `Math.round x` is `⌊x + 1/2⌋`, and `(completed / total) * 100` is computed in
  exact rational arithmetic.
* Nondeterministic `Utils.generateId` is an injected generator parameter.
-/

set_option linter.unnecessarySeqFocus false

namespace StudyTracker

/-- A task record as built by `TaskManager.create` and held in `this.tasks`. -/
structure Task where
  id : String
  title : String
  description : String
  category : String
  priority : String
  deadline : Option Int
  status : String
  createdAt : Int
  completedAt : Option Int
deriving DecidableEq, Repr

/-- A patch object passed to `TaskManager.update`: every field is optional,
`none` meaning the key is absent from the object.  `deadline` and `completedAt`
carry an inner `Option` because a present key may still hold a null value. -/
structure Patch where
  id : Option String := none
  title : Option String := none
  description : Option String := none
  category : Option String := none
  priority : Option String := none
  deadline : Option (Option Int) := none
  status : Option String := none
  completedAt : Option (Option Int) := none
  createdAt : Option Int := none
deriving DecidableEq, Repr

/-- The object spread `\x7b ...task, ...updates \x7d`: a field present in the
patch overwrites the task's field. -/
def applyPatch (t : Task) (p : Patch) : Task :=
  { id := p.id.getD t.id
    title := p.title.getD t.title
    description := p.description.getD t.description
    category := p.category.getD t.category
    priority := p.priority.getD t.priority
    deadline := p.deadline.getD t.deadline
    status := p.status.getD t.status
    createdAt := p.createdAt.getD t.createdAt
    completedAt := p.completedAt.getD t.completedAt }

/-- `TaskManager.update`: find the first task with the given id, adjust the
patch for status transitions into and out of `completed` exactly as the source
does (the source mutates `updates.completedAt` before spreading), then spread
the patch over the task.  Returns the new collection and the returned task
(`none` models the null returned when the id is absent).  The accompanying
statistics calls act on the separate stats record, modelled by `updateStats`. -/
def update (now : Int) (tasks : List Task) (id : String) (p : Patch) :
    List Task × Option Task :=
  match tasks with
  | [] => ([], none)
  | t :: ts =>
    if t.id = id then
      let p1 := if p.status = some "completed" ∧ t.status ≠ "completed" then
          { p with completedAt := some (some now) } else p
      let p2 := if t.status = "completed" ∧ p.status ≠ some "completed" then
          { p1 with completedAt := some none } else p1
      let t2 := applyPatch t p2
      (t2 :: ts, some t2)
    else
      let r := update now ts id p
      (t :: r.1, r.2)

/-- Input object of `TaskManager.create`; absent optional fields are `none`. -/
structure CreateInput where
  title : String
  description : Option String := none
  category : Option String := none
  priority : Option String := none
  deadline : Option Int := none
deriving DecidableEq, Repr

/-- JavaScript `field || dflt` for an optional string field: the default is
taken when the field is absent or the empty string (both falsy). -/
def jsOrString (s : Option String) (dflt : String) : String :=
  match s with
  | none => dflt
  | some "" => dflt
  | some v => v

/-- `TaskManager.create` without the persistence side effect: the constructed
task is appended to the collection; `generateId` is injected as `genId`. -/
def create (genId : String) (now : Int) (tasks : List Task) (input : CreateInput) :
    List Task × Task :=
  let t : Task :=
    { id := genId
      title := input.title.trim
      description := (jsOrString input.description "").trim
      category := jsOrString input.category "study"
      priority := jsOrString input.priority "medium"
      deadline := input.deadline
      status := "pending"
      createdAt := now
      completedAt := none }
  (tasks ++ [t], t)

/-- `TaskManager.delete`: keep the tasks with a different id; report whether the
collection shrank. -/
def deleteTask (tasks : List Task) (id : String) : List Task × Bool :=
  let ts := tasks.filter (fun t => t.id ≠ id)
  (ts, ts.length < tasks.length)

/-- `TaskManager.clearCompleted`: drop every completed task and return how many
were completed. -/
def clearCompleted (tasks : List Task) : List Task × Nat :=
  (tasks.filter (fun t => t.status ≠ "completed"),
    (tasks.filter (fun t => t.status = "completed")).length)

/-- `TaskManager.bulkUpdate`: apply `update` per id on the evolving collection,
counting the ids for which it returned a (truthy) task. -/
def bulkUpdate (now : Int) (tasks : List Task) (ids : List String) (p : Patch) :
    List Task × Nat :=
  ids.foldl
    (fun acc id =>
      let r := update now acc.1 id p
      (r.1, acc.2 + if r.2.isSome then 1 else 0))
    (tasks, 0)

/-- Result shape of `TaskManager.getStats`. -/
structure StatsSummary where
  total : Nat
  completed : Nat
  pending : Nat
  inProgress : Nat
  skipped : Nat
  completionRate : Nat
deriving DecidableEq, Repr

/-- `TaskManager.getStats`.  With `Math.round x = ⌊x + 1/2⌋` on exact rationals,
`Math.round ((completed / total) * 100)` is the integer division
`(200 * completed + total) / (2 * total)`. -/
def getStats (tasks : List Task) : StatsSummary :=
  let total := tasks.length
  let completed := (tasks.filter (fun t => t.status = "completed")).length
  { total := total
    completed := completed
    pending := (tasks.filter (fun t => t.status = "pending")).length
    inProgress := (tasks.filter (fun t => t.status = "in-progress")).length
    skipped := (tasks.filter (fun t => t.status = "skipped")).length
    completionRate := if 0 < total then (200 * completed + total) / (2 * total) else 0 }

/-- The deadline comparator of `TaskManager.sortTasks`, exactly as in the
source: a missing (falsy) deadline on the first argument yields 1, then a
missing deadline on the second yields -1, otherwise the difference of dates. -/
def cmpDeadline (a b : Task) : Int :=
  match a.deadline with
  | none => 1
  | some x =>
    match b.deadline with
    | none => -1
    | some y => x - y

/-- The `newest` comparator: `createdAt` descending. -/
def cmpNewest (a b : Task) : Int := b.createdAt - a.createdAt

/-- The `priorityOrder` lookup table; an unrecognised priority reads as
undefined. -/
def priorityOrder (p : String) : Option Int :=
  if p = "high" then some 0
  else if p = "medium" then some 1
  else if p = "low" then some 2
  else none

/-- The `priority` comparator; an undefined operand makes the subtraction NaN,
which the sort treats as +0. -/
def cmpPriority (a b : Task) : Int :=
  match priorityOrder a.priority, priorityOrder b.priority with
  | some x, some y => x - y
  | _, _ => 0

/-- `localeCompare` modelled as code point comparison of the titles. -/
def cmpAlphabetical (a b : Task) : Int :=
  if a.title < b.title then -1 else if a.title = b.title then 0 else 1

/-- `Array.prototype.sort` with a comparator, modelled as the stable comparison
sort that puts `a` before `b` exactly when `compare a b ≤ 0`. -/
def jsSortBy (cmp : Task → Task → Int) (tasks : List Task) : List Task :=
  tasks.insertionSort (fun a b => cmp a b ≤ 0)

/-- `TaskManager.sortTasks`: dispatch on the sort mode, defaulting to the input
order. -/
def sortTasks (tasks : List Task) (sortBy : String) : List Task :=
  if sortBy = "newest" then jsSortBy cmpNewest tasks
  else if sortBy = "deadline" then jsSortBy cmpDeadline tasks
  else if sortBy = "priority" then jsSortBy cmpPriority tasks
  else if sortBy = "alphabetical" then jsSortBy cmpAlphabetical tasks
  else tasks

/-- Whether a task has a (truthy) deadline. -/
def hasDeadline (t : Task) : Bool := t.deadline.isSome

/-- Ascending-deadline order between two tasks, vacuous when either lacks a
deadline. -/
def deadlineLE (a b : Task) : Prop :=
  ∀ x y, a.deadline = some x → b.deadline = some y → x ≤ y

/-- The ordering invariant of the deadline sort output: a dated task never
follows an undated one, and dated tasks are in ascending deadline order. -/
def deadlineOrd (a b : Task) : Prop :=
  (hasDeadline b = true → hasDeadline a = true) ∧ deadlineLE a b

/-- The transient filter state of the repository. -/
structure Filters where
  status : String
  category : String
  search : String
  sortBy : String
deriving DecidableEq, Repr

/-- JavaScript `String.prototype.includes`: the empty needle always matches;
otherwise the needle occurs iff splitting on it yields at least two pieces. -/
def jsIncludes (s needle : String) : Bool :=
  needle = "" || (s.splitOn needle).length ≥ 2

/-- `TaskManager.getFiltered` over an explicit filter state: status filter
unless `all`, category filter unless `all`, case-insensitive search over title
and (truthy, i.e. nonempty) description when the search string is nonempty
(truthy), then sort. -/
def getFiltered (f : Filters) (tasks : List Task) : List Task :=
  let r1 := if f.status ≠ "all" then tasks.filter (fun t => t.status = f.status) else tasks
  let r2 := if f.category ≠ "all" then r1.filter (fun t => t.category = f.category) else r1
  let r3 :=
    if f.search ≠ "" then
      r2.filter (fun t =>
        jsIncludes t.title.toLower f.search.toLower ||
          (t.description ≠ "" && jsIncludes t.description.toLower f.search.toLower))
    else r2
  sortTasks r3 f.sortBy

/-- Number of tasks completed on calendar day `d`: status `completed` and a
non-null completion timestamp falling on that day. -/
def completedOn (tasks : List Task) (d : Int) : Nat :=
  (tasks.filter (fun t => t.status = "completed" ∧ t.completedAt = some d)).length

/-- The loop of `TaskManager.getStreak`, at day offset `i` with the given number
of iterations remaining: a day with at least one completion is counted and the
walk continues; a day with none ends the walk unless it is day 0. -/
def streakAux (tasks : List Task) (today : Int) : Nat → Nat → Nat
  | _, 0 => 0
  | i, fuel + 1 =>
    if 0 < completedOn tasks (today - i) then
      1 + streakAux tasks today (i + 1) fuel
    else if 0 < i then 0
    else streakAux tasks today (i + 1) fuel

/-- `TaskManager.getStreak`: 365 loop iterations starting at day offset 0. -/
def getStreak (tasks : List Task) (today : Int) : Nat :=
  streakAux tasks today 0 365

/-- The rolling stats record persisted by `Storage.getStats` and
`Storage.saveStats`; `dailyStats` maps a date to completed and created counts. -/
structure Stats where
  totalTasksCreated : Nat
  totalTasksCompleted : Nat
  currentStreak : Nat
  longestStreak : Nat
  lastActiveDate : Option Int
  dailyStats : List (Int × Nat × Nat)
deriving DecidableEq, Repr

/-- `TaskManager.updateStats`.  Date-only strings parse at UTC midnight, so the
source's `diffDays` is exactly the difference of day numbers. -/
def updateStats (action : String) (today : Int) (s : Stats) : Stats :=
  let s1 :=
    if action = "created" then { s with totalTasksCreated := s.totalTasksCreated + 1 }
    else if action = "completed" then
      { s with totalTasksCompleted := s.totalTasksCompleted + 1 }
    else s
  let s2 :=
    match s1.lastActiveDate with
    | some lastActive =>
      let diffDays : Int := today - lastActive
      if diffDays = 1 then { s1 with currentStreak := s1.currentStreak + 1 }
      else if 1 < diffDays then { s1 with currentStreak := 1 }
      else s1
    | none => { s1 with currentStreak := 1 }
  let s3 :=
    if s2.longestStreak < s2.currentStreak then { s2 with longestStreak := s2.currentStreak }
    else s2
  { s3 with lastActiveDate := some today }

/-- An entry of an import payload's tasks array: the spread keeps every field,
while the id is replaced and a missing `createdAt` is defaulted. -/
structure ImpTask where
  id : String
  title : String
  description : String
  category : String
  priority : String
  deadline : Option Int
  status : String
  createdAt : Option Int
  completedAt : Option Int
deriving DecidableEq, Repr

/-- The `tasks` field of an import payload: absent, present but not an array
(both make the source throw: an array, even empty, is truthy and passes
`Array.isArray`), or an array of records. -/
inductive TasksField where
  | absent : TasksField
  | notArray : TasksField
  | arr : List ImpTask → TasksField
deriving DecidableEq, Repr

/-- An import payload. -/
structure ImportPayload where
  tasks : TasksField
deriving DecidableEq, Repr

/-- One imported record: spread of the incoming record with a fresh id and a
defaulted `createdAt` (a present ISO string is truthy). -/
def freshImport (genId : Nat → String) (now : Int) (i : Nat) (t : ImpTask) : Task :=
  { id := genId i
    title := t.title
    description := t.description
    category := t.category
    priority := t.priority
    deadline := t.deadline
    status := t.status
    createdAt := t.createdAt.getD now
    completedAt := t.completedAt }

/-- `data.tasks.map`, with the element index feeding the fresh id generator. -/
def freshImportList (genId : Nat → String) (now : Int) (i : Nat) :
    List ImpTask → List Task
  | [] => []
  | t :: ts => freshImport genId now i t :: freshImportList genId now (i + 1) ts

/-- `TaskManager.import` (named `importTasks` here because `import` is
reserved): throw on a payload whose tasks field is not an array, keeping the
collection unchanged; otherwise append the freshened records and return their
count. -/
def importTasks (genId : Nat → String) (now : Int) (tasks : List Task)
    (p : ImportPayload) : List Task × Option Nat :=
  match p.tasks with
  | TasksField.arr l => (tasks ++ freshImportList genId now 0 l, some l.length)
  | _ => (tasks, none)

/-- A JavaScript id value: a number or a string. -/
inductive IdVal where
  | vnum : Int → IdVal
  | vstr : String → IdVal
deriving DecidableEq, Repr

/-- A stored legacy record as seen by `migrateOldData`; `title` stands for the
fields the migration spreads through unchanged. -/
structure RawTask where
  id : Option IdVal
  priority : Option String
  createdAt : Option Int
  title : String
deriving DecidableEq, Repr

/-- Truthiness of the id field: undefined, the number 0 and the empty string
are falsy. -/
def idTruthy : Option IdVal → Bool
  | none => false
  | some (IdVal.vnum n) => n ≠ 0
  | some (IdVal.vstr s) => s ≠ ""

/-- `typeof id` is `number`. -/
def idIsNumber : Option IdVal → Bool
  | some (IdVal.vnum _) => true
  | _ => false

/-- `String(id)`, used only on truthy ids. -/
def idString : Option IdVal → String
  | some (IdVal.vnum n) => toString n
  | some (IdVal.vstr s) => s
  | none => ""

/-- The per-record rewrite applied when migration triggers: a truthy id is
stringified, a falsy one replaced by a fresh id; missing priority defaults to
`medium`; missing `createdAt` defaults to now. -/
def migrateOne (genId : Nat → String) (now : Int) (i : Nat) (t : RawTask) : RawTask :=
  { t with
    id := some (IdVal.vstr (if idTruthy t.id then idString t.id else genId i))
    priority := some (jsOrString t.priority "medium")
    createdAt := some (t.createdAt.getD now) }

/-- The migration map, with the element index feeding the fresh id generator. -/
def migrateList (genId : Nat → String) (now : Int) (i : Nat) :
    List RawTask → List RawTask
  | [] => []
  | t :: ts => migrateOne genId now i t :: migrateList genId now (i + 1) ts

/-- `TaskManager.migrateOldData`: the rewrite pass runs only when some record
has a falsy or numeric id. -/
def migrateOldData (genId : Nat → String) (now : Int) (tasks : List RawTask) :
    List RawTask :=
  if tasks.any (fun t => !idTruthy t.id || idIsNumber t.id) then
    migrateList genId now 0 tasks
  else tasks

/-- Claim C1, failing input: a task whose status is `completed` (with a
non-null `completedAt`) is updated with a patch that does not contain a
`status` key at all.  The source's guard `newStatus !== 'completed'` is then
true for the undefined `newStatus`, so `completedAt` is cleared to null even
though the status never left `completed`: the resulting task has status
`completed` and `completedAt` null, violating the invariant that `completedAt`
is non-null iff the status is `completed`. -/
theorem c1_completedAt_cleared_without_status_change :
    (update 9 [Task.mk "a" "T" "" "study" "medium" none "completed" 0 (some 3)] "a"
        { title := some "x" }).1.map (fun t => (t.status, t.completedAt)) =
      [("completed", (none : Option Int))] := by
  decide

/-- Claim C7: with the neutral filter state (status `all`, category `all`,
empty search string) and any sort mode, `getFiltered` returns exactly the full
collection ordered by `sortTasks`; in the pure embedding neither the filter
state nor the collection is mutated by construction, matching the source,
which operates on fresh array copies throughout. -/
theorem c7_getFiltered_neutral (tasks : List Task) (sortBy : String) :
    getFiltered (Filters.mk "all" "all" "" sortBy) tasks = sortTasks tasks sortBy := by
  simp [getFiltered]

/-- Claim C2: the streak update of `updateStats` on creation or completion: a
`lastActiveDate` exactly one day before today increments `currentStreak`, one
more than one day before resets it to 1, an absent one initialises it to 1;
`longestStreak` becomes the maximum of its prior value and the new
`currentStreak`; `lastActiveDate` becomes today.  The two-days-ago scenario is
the reset case, and `longestStreak` then changes only if 1 exceeds it. -/
theorem c2_updateStats_streak_rule (action : String) (today : Int) (s : Stats) :
    (s.lastActiveDate = none → (updateStats action today s).currentStreak = 1) ∧
    (s.lastActiveDate = some (today - 1) →
      (updateStats action today s).currentStreak = s.currentStreak + 1) ∧
    (∀ d, s.lastActiveDate = some d → 1 < today - d →
      (updateStats action today s).currentStreak = 1) ∧
    (updateStats action today s).longestStreak =
      max s.longestStreak (updateStats action today s).currentStreak ∧
    (updateStats action today s).lastActiveDate = some today := by
  obtain ⟨tc, tcc, cs, ls, lad, ds⟩ := s
  cases lad with
  | none =>
    simp only [updateStats, apply_ite Stats.currentStreak, apply_ite Stats.longestStreak,
      apply_ite Stats.lastActiveDate, ite_self]
    split_ifs <;> simp_all <;> omega
  | some d0 =>
    simp only [updateStats, apply_ite Stats.currentStreak, apply_ite Stats.longestStreak,
      apply_ite Stats.lastActiveDate, ite_self]
    split_ifs <;> simp_all <;> omega

/-- Claim C2, witness: with `lastActiveDate` two days before today and streaks
3/3, creating a task resets `currentStreak` to 1 and leaves `longestStreak`
at 3. -/
theorem c2_updateStats_streak_rule_witness :
    (updateStats "created" 9 (Stats.mk 0 0 3 3 (some 7) [])).currentStreak = 1 ∧
    (updateStats "created" 9 (Stats.mk 0 0 3 3 (some 7) [])).longestStreak = 3 := by
  have h := c2_updateStats_streak_rule "created" 9 (Stats.mk 0 0 3 3 (some 7) [])
  refine ⟨h.2.2.1 7 rfl (by decide), ?_⟩
  have h4 := h.2.2.2.1
  rw [h.2.2.1 7 rfl (by decide)] at h4
  simpa using h4

/-- Claim C10: when `lastActiveDate` already equals today (so `diffDays` is 0),
`updateStats` changes nothing but the relevant counter, provided the record
satisfies the invariant `currentStreak ≤ longestStreak` that every record the
program writes satisfies (see `updateStats_streak_le_longest`). -/
theorem c10_updateStats_same_day (today : Int) (s : Stats)
    (h1 : s.lastActiveDate = some today) (h2 : s.currentStreak ≤ s.longestStreak) :
    updateStats "created" today s =
      { s with totalTasksCreated := s.totalTasksCreated + 1 } ∧
    updateStats "completed" today s =
      { s with totalTasksCompleted := s.totalTasksCompleted + 1 } := by
  obtain ⟨tc, tcc, cs, ls, lad, ds⟩ := s
  simp only [Stats.lastActiveDate] at h1
  subst h1
  simp only [Stats.currentStreak, Stats.longestStreak] at h2
  simp only [updateStats, apply_ite Stats.currentStreak, apply_ite Stats.longestStreak,
    apply_ite Stats.lastActiveDate, apply_ite Stats.totalTasksCreated,
    apply_ite Stats.totalTasksCompleted, apply_ite Stats.dailyStats, ite_self]
  constructor <;> (split_ifs <;> simp_all <;> omega)

/-- Every stats record produced by `updateStats` satisfies
`currentStreak ≤ longestStreak`; together with the initial record (0, 0) this
makes the invariant hold for every record the program ever stores. -/
theorem updateStats_streak_le_longest (action : String) (today : Int) (s : Stats) :
    (updateStats action today s).currentStreak ≤ (updateStats action today s).longestStreak := by
  obtain ⟨tc, tcc, cs, ls, lad, ds⟩ := s
  cases lad <;>
    simp only [updateStats, apply_ite Stats.currentStreak, apply_ite Stats.longestStreak,
      ite_self] <;>
    split_ifs <;> simp_all <;> omega

/-- Claim C10, witness: a same-day record with streaks 2/3 gains only the
created counter. -/
theorem c10_updateStats_same_day_witness :
    updateStats "created" 4 (Stats.mk 10 5 2 3 (some 4) []) = Stats.mk 11 5 2 3 (some 4) [] ∧
    updateStats "completed" 4 (Stats.mk 10 5 2 3 (some 4) []) = Stats.mk 10 6 2 3 (some 4) [] := by
  have h := c10_updateStats_same_day 4 (Stats.mk 10 5 2 3 (some 4) []) rfl (by decide)
  exact ⟨h.1, h.2⟩

/-- For a patch without `id` and `createdAt` keys, one `update` call leaves the
id and createdAt of every task in the collection unchanged (the transition
adjustments inside `update` touch only the patch's `completedAt` field). -/
theorem update_map_id_createdAt (now : Int) (id : String) (p : Patch)
    (hid : p.id = none) (hca : p.createdAt = none) (tasks : List Task) :
    (update now tasks id p).1.map (fun t => (t.id, t.createdAt)) =
      tasks.map (fun t => (t.id, t.createdAt)) := by
  induction tasks with
  | nil => rfl
  | cons t ts ih =>
    by_cases h : t.id = id
    · simp only [update, if_pos h, List.map_cons]
      congr 1
      simp [applyPatch, apply_ite Patch.id, apply_ite Patch.createdAt, hid, hca]
    · simp only [update, if_neg h, List.map_cons]
      congr 1

/-- The same preservation for the fold inside `bulkUpdate`. -/
theorem bulkUpdate_foldl_map_id_createdAt (now : Int) (p : Patch)
    (hid : p.id = none) (hca : p.createdAt = none) (ids : List String)
    (st : List Task × Nat) :
    ((ids.foldl
        (fun acc id =>
          let r := update now acc.1 id p
          (r.1, acc.2 + if r.2.isSome then 1 else 0)) st).1).map
        (fun t => (t.id, t.createdAt)) =
      st.1.map (fun t => (t.id, t.createdAt)) := by
  induction ids generalizing st with
  | nil => rfl
  | cons i ids ih =>
    simp only [List.foldl_cons]
    rw [ih]
    exact update_map_id_createdAt now i p hid hca st.1

/-- Claim C9, amended: `update` (and hence `bulkUpdate`) leaves every task's
`id` and `createdAt` unchanged provided the patch itself contains neither an
`id` nor a `createdAt` key — which is true of every patch the repository's UI
passes; the spread `...updates` would apply such keys if present (see the
counterexample). -/
theorem c9_update_preserves_id_createdAt (now : Int) (tasks : List Task)
    (id : String) (p : Patch) (hid : p.id = none) (hca : p.createdAt = none) :
    (update now tasks id p).1.map (fun t => (t.id, t.createdAt)) =
      tasks.map (fun t => (t.id, t.createdAt)) ∧
    ∀ ids, (bulkUpdate now tasks ids p).1.map (fun t => (t.id, t.createdAt)) =
      tasks.map (fun t => (t.id, t.createdAt)) := by
  refine ⟨update_map_id_createdAt now id p hid hca tasks, fun ids => ?_⟩
  simpa [bulkUpdate] using
    bulkUpdate_foldl_map_id_createdAt now p hid hca ids (tasks, 0)

/-- Claim C9, witness: a title-only patch leaves id `a` and createdAt 0 in
place, both through `update` and through `bulkUpdate`. -/
theorem c9_update_preserves_id_createdAt_witness :
    (update 5 [Task.mk "a" "T" "" "study" "medium" none "pending" 0 none] "a"
        { title := some "x" }).1.map (fun t => (t.id, t.createdAt)) = [("a", 0)] ∧
    (bulkUpdate 5 [Task.mk "a" "T" "" "study" "medium" none "pending" 0 none] ["a"]
        { title := some "x" }).1.map (fun t => (t.id, t.createdAt)) = [("a", 0)] := by
  have h := c9_update_preserves_id_createdAt 5
    [Task.mk "a" "T" "" "study" "medium" none "pending" 0 none] "a"
    { title := some "x" } rfl rfl
  exact ⟨h.1.trans (by rfl), (h.2 ["a"]).trans (by rfl)⟩

/-- Claim C9, counterexample to the claim as stated: a patch that itself
contains a `createdAt` key overwrites the field (the source spreads the whole
patch), so `createdAt` is not unchanged under every patch: the task was
created with createdAt 0 and holds 1 after the update. -/
theorem c9_createdAt_patch_counterexample :
    (update 9 [Task.mk "a" "T" "" "study" "medium" none "pending" 0 none] "a"
        { createdAt := some 1 }).1.map Task.createdAt = [1] ∧
    (Task.mk "a" "T" "" "study" "medium" none "pending" 0 none).createdAt = 0 := by
  decide

/-- Claim C8: `completionRate` is 0 on an empty collection, equals the
half-up rounding of `100 * completed / total` on a non-empty one, and is
exactly 100 when every task is completed. -/
theorem c8_getStats_completionRate (tasks : List Task) :
    (tasks.length = 0 → (getStats tasks).completionRate = 0) ∧
    (0 < tasks.length →
      ((getStats tasks).completionRate : ℤ) =
        round ((100 * ((getStats tasks).completed : ℚ)) / ((getStats tasks).total : ℚ))) ∧
    (0 < tasks.length → (∀ t ∈ tasks, t.status = "completed") →
      (getStats tasks).completionRate = 100) := by
  refine ⟨fun h => ?_, fun h => ?_, fun h hall => ?_⟩
  · simp [getStats, h]
  · simp only [getStats, if_pos h]
    rw [round_eq]
    have hT : ((tasks.length : ℚ)) ≠ 0 := by
      exact_mod_cast Nat.pos_iff_ne_zero.mp h
    have key : (100 * (((tasks.filter (fun t => t.status = "completed")).length : ℚ))) /
          ((tasks.length : ℚ)) + 1 / 2 =
        (((200 * (tasks.filter (fun t => t.status = "completed")).length +
            tasks.length : ℕ) : ℤ) : ℚ) / ((2 * tasks.length : ℕ) : ℚ) := by
      push_cast
      field_simp
      ring
    rw [key, Rat.floor_intCast_div_natCast]
    push_cast [Int.ofNat_tdiv]
    rfl
  · have hc : tasks.filter (fun t => t.status = "completed") = tasks := by
      rw [List.filter_eq_self]
      intro a ha
      simpa using hall a ha
    simp only [getStats, if_pos h, hc]
    have e : 200 * tasks.length + tasks.length = tasks.length + 2 * tasks.length * 100 := by
      ring
    rw [e, Nat.add_mul_div_left _ _ (by omega), Nat.div_eq_of_lt (by omega)]

/-- Claim C8, witness: a singleton fully-completed collection has rate 100,
and the empty collection has rate 0. -/
theorem c8_getStats_completionRate_witness :
    (getStats [Task.mk "a" "T" "" "study" "medium" none "completed" 0 (some 2)]).completionRate
        = 100 ∧
    (getStats ([] : List Task)).completionRate = 0 := by
  refine ⟨(c8_getStats_completionRate
      [Task.mk "a" "T" "" "study" "medium" none "completed" 0 (some 2)]).2.2
      (by decide) (by decide),
    (c8_getStats_completionRate ([] : List Task)).1 (by decide)⟩

/-- Helper: `findIdx` over a successor-mapped list shifts the predicate. -/
theorem findIdx_map_succ (p : Nat → Bool) (l : List Nat) :
    (l.map Nat.succ).findIdx p = l.findIdx (fun x => p (x + 1)) := by
  induction l with
  | nil => rfl
  | cons a l ih => simp [List.findIdx_cons, ih]

/-- Helper: from a positive day offset `i`, the remaining streak walk counts
exactly up to the first zero-completion day among the next `fuel` offsets. -/
theorem streakAux_eq_findIdx (tasks : List Task) (today : Int) :
    ∀ (fuel i : Nat), 0 < i →
      streakAux tasks today i fuel =
        (List.range fuel).findIdx
          (fun j : Nat => completedOn tasks (today - ((i + j : Nat))) = 0) := by
  intro fuel
  induction fuel with
  | zero =>
    intro i hi
    rfl
  | succ fuel ih =>
    intro i hi
    rw [List.range_succ_eq_map, List.findIdx_cons]
    by_cases h : 0 < completedOn tasks (today - i)
    · have hp : (decide (completedOn tasks (today - ((i + 0 : Nat))) = 0)) = false := by
        simp only [Nat.add_zero]
        simp only [decide_eq_false_iff_not]
        omega
      rw [hp]
      simp only [streakAux, if_pos h, cond_false]
      rw [findIdx_map_succ, ih (i + 1) (by omega)]
      have hfun : (fun x : Nat => decide (completedOn tasks (today - ((i + (x + 1) : Nat))) = 0)) =
          (fun j : Nat => decide (completedOn tasks (today - ((i + 1 + j : Nat))) = 0)) := by
        funext x
        have e : i + (x + 1) = i + 1 + x := by omega
        rw [e]
      rw [hfun]
      omega
    · have hp : (decide (completedOn tasks (today - ((i + 0 : Nat))) = 0)) = true := by
        simp only [Nat.add_zero]
        simp only [decide_eq_true_eq]
        omega
      rw [hp]
      simp only [streakAux, if_neg h, if_pos hi, cond_true]

/-- Claim C3: `getStreak` walks backward from today, adds 1 for today exactly
when today has a completion, then adds the index of the first
zero-completion day among the 364 earlier offsets (a zero on today itself
does not stop the walk), and its value never exceeds the 365-day lookback. -/
theorem c3_getStreak_walk (tasks : List Task) (today : Int) :
    getStreak tasks today =
      (if 0 < completedOn tasks today then 1 else 0) +
        (List.range 364).findIdx
          (fun j : Nat => completedOn tasks (today - ((j + 1 : Nat))) = 0) ∧
    getStreak tasks today ≤ 365 := by
  have hfun : (fun j : Nat => decide (completedOn tasks (today - ((1 + j : Nat))) = 0)) =
      (fun j : Nat => decide (completedOn tasks (today - ((j + 1 : Nat))) = 0)) := by
    funext x
    have e : 1 + x = x + 1 := by omega
    rw [e]
  have key : getStreak tasks today =
      (if 0 < completedOn tasks today then 1 else 0) +
        (List.range 364).findIdx
          (fun j : Nat => completedOn tasks (today - ((j + 1 : Nat))) = 0) := by
    have e365 : (365 : Nat) = 364 + 1 := rfl
    show streakAux tasks today 0 365 = _
    rw [e365, streakAux]
    simp only [Nat.zero_add]
    by_cases h : 0 < completedOn tasks (today - ((0 : Nat) : Int))
    · have h0 : 0 < completedOn tasks today := by
        simpa using h
      rw [if_pos h, if_pos h0]
      rw [streakAux_eq_findIdx tasks today 364 1 (by omega), hfun]
    · have h0 : ¬ 0 < completedOn tasks today := by
        simpa using h
      rw [if_neg h, if_neg (by omega : ¬ (0 : Nat) < 0), if_neg h0]
      rw [streakAux_eq_findIdx tasks today 364 1 (by omega), hfun]
      omega
  refine ⟨key, ?_⟩
  rw [key]
  have hb : (List.range 364).findIdx
      (fun j : Nat => completedOn tasks (today - ((j + 1 : Nat))) = 0) ≤ 364 := by
    have h := @List.findIdx_le_length Nat
      (fun j : Nat => decide (completedOn tasks (today - ((j + 1 : Nat))) = 0))
      (List.range 364)
    simpa using h
  split_ifs <;> omega

/-- Helper: the digit accumulator of `Nat.toDigitsCore` never becomes empty. -/
theorem toDigitsCore_ne_nil (b f n : Nat) (acc : List Char) (h : acc ≠ []) :
    Nat.toDigitsCore b f n acc ≠ [] := by
  induction f generalizing n acc with
  | zero => simpa [Nat.toDigitsCore] using h
  | succ f ih =>
    simp only [Nat.toDigitsCore]
    split
    · simp
    · exact ih _ _ (by simp)

/-- Helper: a natural number always prints at least one digit. -/
theorem toDigits_ne_nil (b n : Nat) : Nat.toDigits b n ≠ [] := by
  unfold Nat.toDigits
  simp only [Nat.toDigitsCore]
  split
  · simp
  · exact toDigitsCore_ne_nil _ _ _ _ (by simp)

/-- Helper: `Nat.repr` is never the empty string. -/
theorem natRepr_ne_empty (n : Nat) : Nat.repr n ≠ "" := by
  unfold Nat.repr
  intro h
  have h2 : Nat.toDigits 10 n = [] := by
    have h3 := congrArg String.data h
    simpa [List.asString] using h3
  exact toDigits_ne_nil 10 n h2

/-- Helper: `String(n)` for an integer is never the empty string, so a
stringified numeric id is truthy. -/
theorem toString_int_ne_empty (n : Int) : toString n ≠ "" := by
  show Int.repr n ≠ ""
  cases n with
  | ofNat m => exact natRepr_ne_empty m
  | negSucc m =>
    intro h
    have h3 := congrArg String.data h
    simp [Int.repr, String.data] at h3

/-- Helper: indexed lookup through the migration map. -/
theorem migrateList_getElem (genId : Nat → String) (now : Int) :
    ∀ (l : List RawTask) (k i : Nat),
      (migrateList genId now k l)[i]? = (l[i]?).map (migrateOne genId now (k + i)) := by
  intro l
  induction l with
  | nil =>
    intro k i
    simp [migrateList]
  | cons t ts ih =>
    intro k i
    cases i with
    | zero => simp [migrateList]
    | succ i =>
      simp only [migrateList, List.getElem?_cons_succ]
      rw [ih (k + 1) i]
      have e : k + 1 + i = k + (i + 1) := by omega
      rw [e]

/-- Helper: a collection in which every id is truthy and non-numeric is left
alone by `migrateOldData`. -/
theorem migrateOldData_no_trigger (genId : Nat → String) (now : Int)
    (tasks : List RawTask)
    (h : ∀ t ∈ tasks, idTruthy t.id = true ∧ idIsNumber t.id = false) :
    migrateOldData genId now tasks = tasks := by
  unfold migrateOldData
  rw [if_neg]
  simp only [List.any_eq_true, not_exists]
  intro t
  simp only [not_and]
  intro ht
  have h2 := h t ht
  simp [h2.1, h2.2]

/-- Helper: after a migration pass with a generator that never yields the
empty string, every id is a truthy non-numeric string. -/
theorem migrateList_all_good (genId : Nat → String) (now : Int)
    (hg : ∀ i, genId i ≠ "") :
    ∀ (l : List RawTask) (k : Nat),
      ∀ t ∈ migrateList genId now k l,
        idTruthy t.id = true ∧ idIsNumber t.id = false := by
  intro l
  induction l with
  | nil =>
    intro k t ht
    simp [migrateList] at ht
  | cons a as ih =>
    intro k t ht
    simp only [migrateList, List.mem_cons] at ht
    rcases ht with rfl | ht
    · refine ⟨?_, by simp [migrateOne, idIsNumber]⟩
      simp only [migrateOne, idTruthy]
      split
      case isTrue h =>
        cases ha : a.id with
        | none => rw [ha] at h; simp at h
        | some v =>
          cases v with
          | vnum n => simpa [idString] using toString_int_ne_empty n
          | vstr s =>
            rw [ha] at h
            simp only [decide_eq_true_eq] at h
            simpa [idString] using h
      case isFalse h => simpa using hg k
    · exact ih (k + 1) t ht

/-- Helper: a second migration pass changes nothing, whatever generator and
time the second pass uses, provided the first generator never yields the
empty string. -/
theorem migrateOldData_idempotent (g1 g2 : Nat → String) (n1 n2 : Int)
    (tasks : List RawTask) (hg : ∀ i, g1 i ≠ "") :
    migrateOldData g2 n2 (migrateOldData g1 n1 tasks) =
      migrateOldData g1 n1 tasks := by
  by_cases h : tasks.any (fun t => !idTruthy t.id || idIsNumber t.id) = true
  · have hinner : migrateOldData g1 n1 tasks = migrateList g1 n1 0 tasks := by
      rw [migrateOldData, if_pos h]
    rw [hinner]
    exact migrateOldData_no_trigger g2 n2 _ (migrateList_all_good g1 n1 hg tasks 0)
  · have hinner : migrateOldData g1 n1 tasks = tasks := by
      rw [migrateOldData, if_neg h]
    rw [hinner, migrateOldData, if_neg h]

/-- Claim C5, amended: the migration pass triggers exactly on a falsy or
numeric id somewhere in the collection (a record merely lacking a priority
does not trigger it and is left unchanged — see the counterexample); when
triggered every record is rewritten by `migrateOne`, which keeps a truthy id
(stringifying a numeric one) and replaces only a falsy id by a fresh one,
defaults a missing priority to `medium` and a missing `createdAt` to now;
and a second pass on the migrated collection changes nothing, given that the
id generator never returns the empty string. -/
theorem c5_migration_amended (genId : Nat → String) (now : Int)
    (tasks : List RawTask) :
    ((∀ t ∈ tasks, idTruthy t.id = true ∧ idIsNumber t.id = false) →
        migrateOldData genId now tasks = tasks) ∧
    (tasks.any (fun t => !idTruthy t.id || idIsNumber t.id) = true →
      ∀ i : Nat, (migrateOldData genId now tasks)[i]? =
        (tasks[i]?).map (migrateOne genId now i)) ∧
    ((∀ i, genId i ≠ "") → ∀ (g2 : Nat → String) (n2 : Int),
        migrateOldData g2 n2 (migrateOldData genId now tasks) =
          migrateOldData genId now tasks) := by
  refine ⟨migrateOldData_no_trigger genId now tasks, fun h i => ?_,
    fun hg g2 n2 => migrateOldData_idempotent genId g2 now n2 tasks hg⟩
  rw [migrateOldData, if_pos h]
  simpa using migrateList_getElem genId now tasks 0 i

/-- Claim C5, witness: a single record with the numeric id 5 triggers
migration, is rewritten by `migrateOne` (id stringified to `5`, priority
defaulted, `createdAt` defaulted), and a second pass changes nothing. -/
theorem c5_migration_amended_witness :
    (migrateOldData (fun _ => "g") 3 [RawTask.mk (some (IdVal.vnum 5)) none none "T"])[0]? =
      (([RawTask.mk (some (IdVal.vnum 5)) none none "T"])[0]?).map
        (migrateOne (fun _ => "g") 3 0) ∧
    migrateOldData (fun _ => "h") 0
        (migrateOldData (fun _ => "g") 3 [RawTask.mk (some (IdVal.vnum 5)) none none "T"]) =
      migrateOldData (fun _ => "g") 3 [RawTask.mk (some (IdVal.vnum 5)) none none "T"] := by
  have h := c5_migration_amended (fun _ => "g") 3
    [RawTask.mk (some (IdVal.vnum 5)) none none "T"]
  exact ⟨h.2.1 (by decide) 0, h.2.2 (fun i => by decide) (fun _ => "h") 0⟩

/-- Claim C5, counterexample to the claim as stated: a record having a string
id but lacking a priority does not trigger the migration pass (the trigger
looks only at ids), so it does not receive the default priority `medium`,
contradicting the claim that every record lacking a priority is upgraded. -/
theorem c5_priority_only_not_migrated :
    migrateOldData (fun _ => "fresh") 0
        [RawTask.mk (some (IdVal.vstr "a")) none (some 5) "T"] =
      [RawTask.mk (some (IdVal.vstr "a")) none (some 5) "T"] ∧
    (RawTask.mk (some (IdVal.vstr "a")) none (some 5) "T").priority ≠ some "medium" := by
  decide

/-- Helper: the ids assigned by the import map are exactly the generator's
outputs at consecutive indices, never the incoming ids. -/
theorem freshImportList_map_id (genId : Nat → String) (now : Int) :
    ∀ (l : List ImpTask) (i : Nat),
      (freshImportList genId now i l).map Task.id =
        (List.range l.length).map (fun k => genId (i + k)) := by
  intro l
  induction l with
  | nil =>
    intro i
    rfl
  | cons t ts ih =>
    intro i
    simp only [freshImportList, List.map_cons, List.length_cons,
      List.range_succ_eq_map, List.map_map]
    rw [ih (i + 1)]
    refine congrArg₂ _ (by simp [freshImport]) ?_
    apply List.map_congr_left
    intro k _
    simp only [Function.comp_apply, Nat.succ_eq_add_one]
    have e : i + 1 + k = i + (k + 1) := by omega
    rw [e]

/-- Claim C6: import fails (keeping the collection) exactly when the payload's
tasks field is not an array; otherwise it returns the number imported, keeps
the pre-existing tasks as an unchanged prefix, appends the freshened records,
and gives every appended record an id freshly generated from the injected
generator, never one of the incoming ids. -/
theorem c6_importTasks_spec (genId : Nat → String) (now : Int) (cur : List Task)
    (p : ImportPayload) :
    ((importTasks genId now cur p).2 = none ↔ ∀ l, p.tasks ≠ TasksField.arr l) ∧
    ((importTasks genId now cur p).2 = none → (importTasks genId now cur p).1 = cur) ∧
    (∀ l, p.tasks = TasksField.arr l →
      (importTasks genId now cur p).2 = some l.length ∧
      (importTasks genId now cur p).1.take cur.length = cur ∧
      (importTasks genId now cur p).1.drop cur.length = freshImportList genId now 0 l ∧
      ((importTasks genId now cur p).1.drop cur.length).map Task.id =
        (List.range l.length).map genId) := by
  obtain ⟨tf⟩ := p
  cases tf with
  | absent =>
    refine ⟨by simp [importTasks], fun _ => rfl, fun l hl => by simp at hl⟩
  | notArray =>
    refine ⟨by simp [importTasks], fun _ => rfl, fun l hl => by simp at hl⟩
  | arr l0 =>
    refine ⟨by simp [importTasks], by simp [importTasks], fun l hl => ?_⟩
    obtain rfl : l0 = l := by simpa using hl
    refine ⟨rfl, ?_, ?_, ?_⟩
    · show (cur ++ freshImportList genId now 0 l0).take cur.length = cur
      exact List.take_left cur (freshImportList genId now 0 l0)
    · show (cur ++ freshImportList genId now 0 l0).drop cur.length =
        freshImportList genId now 0 l0
      exact List.drop_left cur (freshImportList genId now 0 l0)
    · have hd : (importTasks genId now cur
          (ImportPayload.mk (TasksField.arr l0))).1.drop cur.length =
            freshImportList genId now 0 l0 :=
        List.drop_left cur (freshImportList genId now 0 l0)
      rw [hd, freshImportList_map_id genId now l0 0]
      apply List.map_congr_left
      intro k _
      simp

/-- Claim C6, witness: importing a one-record array payload onto a one-task
collection returns count 1, keeps the old task, and assigns the generated id
rather than the incoming id `old`. -/
theorem c6_importTasks_spec_witness :
    (importTasks (fun _ => "fresh") 7
        [Task.mk "keep" "K" "" "study" "medium" none "pending" 0 none]
        (ImportPayload.mk (TasksField.arr
          [ImpTask.mk "old" "I" "" "work" "low" none "pending" none none]))).2 =
      some 1 ∧
    ((importTasks (fun _ => "fresh") 7
        [Task.mk "keep" "K" "" "study" "medium" none "pending" 0 none]
        (ImportPayload.mk (TasksField.arr
          [ImpTask.mk "old" "I" "" "work" "low" none "pending" none none]))).1.drop 1).map
        Task.id = ["fresh"] := by
  have h := c6_importTasks_spec (fun _ => "fresh") 7
    [Task.mk "keep" "K" "" "study" "medium" none "pending" 0 none]
    (ImportPayload.mk (TasksField.arr
      [ImpTask.mk "old" "I" "" "work" "low" none "pending" none none]))
  have h3 := h.2.2 [ImpTask.mk "old" "I" "" "work" "low" none "pending" none none] rfl
  exact ⟨h3.1, h3.2.2.2.trans (by decide)⟩

/-- Helper: the `deadline` branch of `sortTasks` is the sort model applied to
the source's deadline comparator. -/
theorem sortTasks_deadline_eq (tasks : List Task) :
    sortTasks tasks "deadline" =
      List.insertionSort (fun a b => cmpDeadline a b ≤ 0) tasks := by
  simp [sortTasks, jsSortBy]

/-- Helper: inserting an undated task appends it at the end, since the
comparator reports it after everything. -/
theorem orderedInsert_undated (a : Task) (ha : a.deadline = none) :
    ∀ l : List Task,
      List.orderedInsert (fun a b => cmpDeadline a b ≤ 0) a l = l ++ [a] := by
  intro l
  induction l with
  | nil => rfl
  | cons b l ih =>
    rw [List.orderedInsert, if_neg, ih]
    · rfl
    · simp [cmpDeadline, ha]

/-- Helper: a filter that rejects the inserted element passes over an
insertion unchanged. -/
theorem filter_orderedInsert_neg (r : Task → Task → Prop) [DecidableRel r]
    (p : Task → Bool) (a : Task) (hp : p a = false) :
    ∀ l : List Task,
      (List.orderedInsert r a l).filter p = l.filter p := by
  intro l
  induction l with
  | nil => simp [List.orderedInsert, List.filter, hp]
  | cons b l ih =>
    rw [List.orderedInsert]
    by_cases h : r a b
    · rw [if_pos h]
      simp [List.filter, hp]
    · rw [if_neg h]
      cases hb : p b <;> simp [List.filter_cons, hb, ih]

/-- Helper: a task with deadline `d` is inserted before every task already
carrying deadline `d` (the comparator skips only strictly earlier dated
tasks), so the filter at `d` sees it in front. -/
theorem filter_orderedInsert_eq_deadline (d : Int) (a : Task)
    (ha : a.deadline = some d) :
    ∀ l : List Task,
      (List.orderedInsert (fun a b => cmpDeadline a b ≤ 0) a l).filter
          (fun t => t.deadline = some d) =
        a :: l.filter (fun t => t.deadline = some d) := by
  intro l
  induction l with
  | nil => simp [List.orderedInsert, List.filter, ha]
  | cons b l ih =>
    rw [List.orderedInsert]
    by_cases h : cmpDeadline a b ≤ 0
    · rw [if_pos h]
      simp [List.filter_cons, ha]
    · rw [if_neg h]
      have hb : b.deadline ≠ some d := by
        intro hbd
        cases hand : b.deadline with
        | none => rw [hand] at hbd; exact Option.noConfusion hbd
        | some y =>
          rw [hand] at hbd
          have hy : y = d := by simpa using hbd
          simp only [cmpDeadline, ha, hand] at h
          omega
      rw [List.filter_cons_of_neg (by simpa using hb), ih,
        List.filter_cons_of_neg (by simpa using hb)]

/-- Helper: insertion preserves the deadline-sort ordering invariant. -/
theorem orderedInsert_pairwise_deadlineOrd (a : Task) :
    ∀ l : List Task, l.Pairwise deadlineOrd →
      (List.orderedInsert (fun a b => cmpDeadline a b ≤ 0) a l).Pairwise deadlineOrd := by
  cases ha : a.deadline with
  | none =>
    intro l h
    rw [orderedInsert_undated a ha l]
    rw [List.pairwise_append]
    refine ⟨h, List.pairwise_singleton _ _, ?_⟩
    intro x _ y hy
    have hya : y = a := by simpa using hy
    subst hya
    constructor
    · intro hcontra
      simp [hasDeadline, ha] at hcontra
    · intro x' y' _ hy'
      rw [ha] at hy'
      exact Option.noConfusion hy'
  | some dx =>
    intro l
    induction l with
    | nil =>
      intro _
      simp [List.orderedInsert]
    | cons b l ih =>
      intro h
      have hb : ∀ y ∈ l, deadlineOrd b y := fun y hy => List.rel_of_pairwise_cons h hy
      have hl := h.of_cons
      rw [List.orderedInsert]
      by_cases hr : cmpDeadline a b ≤ 0
      · rw [if_pos hr]
        refine List.Pairwise.cons ?_ h
        intro y hy
        rcases List.mem_cons.mp hy with rfl | hyl
        · refine ⟨fun _ => by simp [hasDeadline, ha], ?_⟩
          intro x y' hx hy'
          rw [ha] at hx
          obtain rfl : dx = x := by simpa using hx
          simp only [cmpDeadline, ha, hy'] at hr
          omega
        · refine ⟨fun _ => by simp [hasDeadline, ha], ?_⟩
          intro x y' hx hy'
          rw [ha] at hx
          obtain rfl : dx = x := by simpa using hx
          cases hbd : b.deadline with
          | none =>
            have h1 := (hb y hyl).1
            have h2 : hasDeadline y = true := by simp [hasDeadline, hy']
            have h3 := h1 h2
            simp [hasDeadline, hbd] at h3
          | some db =>
            have h4 : dx ≤ db := by
              simp only [cmpDeadline, ha, hbd] at hr
              omega
            have h5 := (hb y hyl).2 db y' hbd hy'
            omega
      · rw [if_neg hr]
        have hbd : ∃ db, b.deadline = some db ∧ db < dx := by
          cases hbd : b.deadline with
          | none => simp [cmpDeadline, ha, hbd] at hr
          | some db =>
            refine ⟨db, rfl, ?_⟩
            simp only [cmpDeadline, ha, hbd] at hr
            omega
        obtain ⟨db, hbdeq, hdb⟩ := hbd
        refine List.Pairwise.cons ?_ (ih hl)
        intro y hy
        have hy2 : y = a ∨ y ∈ l :=
          (List.mem_orderedInsert (fun a b => cmpDeadline a b ≤ 0)).mp hy
        rcases hy2 with rfl | hyl
        · refine ⟨fun _ => by simp [hasDeadline, hbdeq], ?_⟩
          intro x y' hx hy'
          rw [hbdeq] at hx
          obtain rfl : db = x := by simpa using hx
          rw [ha] at hy'
          obtain rfl : dx = y' := by simpa using hy'
          omega
        · exact hb y hyl

/-- Helper: the deadline sort output satisfies the ordering invariant. -/
theorem insertionSort_pairwise_deadlineOrd (tasks : List Task) :
    (List.insertionSort (fun a b => cmpDeadline a b ≤ 0) tasks).Pairwise deadlineOrd := by
  induction tasks with
  | nil => simp [List.insertionSort]
  | cons t l ih =>
    rw [List.insertionSort]
    exact orderedInsert_pairwise_deadlineOrd t _ ih

/-- Helper: a list satisfying the ordering invariant is its dated part
followed by its undated part. -/
theorem pairwise_deadlineOrd_split :
    ∀ l : List Task, l.Pairwise deadlineOrd →
      l = l.filter (fun t => hasDeadline t) ++ l.filter (fun t => !hasDeadline t) := by
  intro l
  induction l with
  | nil => intro _; rfl
  | cons t l ih =>
    intro h
    have ht : ∀ x ∈ l, deadlineOrd t x := fun x hx => List.rel_of_pairwise_cons h hx
    have hl := h.of_cons
    cases hD : hasDeadline t with
    | true =>
      rw [List.filter_cons_of_pos (by simp [hD]),
        List.filter_cons_of_neg (by simp [hD])]
      rw [List.cons_append]
      exact congrArg _ (ih hl)
    | false =>
      have hall : ∀ x ∈ l, hasDeadline x = false := by
        intro x hx
        by_contra hcontra
        have hx2 : hasDeadline x = true := by
          cases hxx : hasDeadline x
          · exact absurd hxx hcontra
          · rfl
        have := (ht x hx).1 hx2
        rw [hD] at this
        exact Bool.noConfusion this
      rw [List.filter_cons_of_neg (by simp [hD]),
        List.filter_cons_of_pos (by simp [hD])]
      have h1 : l.filter (fun t => hasDeadline t) = [] := by
        rw [List.filter_eq_nil_iff]
        intro x hx
        simp [hall x hx]
      have h2 : l.filter (fun t => !hasDeadline t) = l := by
        rw [List.filter_eq_self]
        intro x hx
        simp [hall x hx]
      rw [h1, h2]
      rfl

/-- Helper: the deadline sort is stable on each class of equal deadlines: the
tasks carrying deadline `d` come out in their original relative order. -/
theorem insertionSort_filter_deadline (d : Int) :
    ∀ tasks : List Task,
      (List.insertionSort (fun a b => cmpDeadline a b ≤ 0) tasks).filter
          (fun t => t.deadline = some d) =
        tasks.filter (fun t => t.deadline = some d) := by
  intro tasks
  induction tasks with
  | nil => rfl
  | cons t l ih =>
    rw [List.insertionSort]
    by_cases h : t.deadline = some d
    · rw [filter_orderedInsert_eq_deadline d t h, ih,
        List.filter_cons_of_pos (by simpa using h)]
    · rw [filter_orderedInsert_neg _ _ t (by simpa using h), ih,
        List.filter_cons_of_neg (by simpa using h)]

/-- Helper: the undated tasks come out of the deadline sort in reversed
original order. -/
theorem insertionSort_filter_undated :
    ∀ tasks : List Task,
      (List.insertionSort (fun a b => cmpDeadline a b ≤ 0) tasks).filter
          (fun t => !hasDeadline t) =
        (tasks.filter (fun t => !hasDeadline t)).reverse := by
  intro tasks
  induction tasks with
  | nil => rfl
  | cons t l ih =>
    rw [List.insertionSort]
    cases hD : t.deadline with
    | none =>
      rw [orderedInsert_undated t hD, List.filter_append, ih,
        List.filter_cons_of_pos (by simp [hasDeadline, hD]),
        List.filter_cons_of_pos (by simp [hasDeadline, hD]),
        List.reverse_cons]
      rfl
    | some x =>
      rw [filter_orderedInsert_neg _ _ t (by simp [hasDeadline, hD]), ih,
        List.filter_cons_of_neg (by simp [hasDeadline, hD])]

/-- Claim C4, amended: sorting by `deadline` produces the dated tasks followed
by the undated ones; the dated prefix is in ascending deadline order, and the
tasks of each equal-deadline class keep their original relative order; but two
tasks that both lack a deadline do not keep their original order — the source
comparator returns 1 for both argument orders on such a pair (an inconsistent
comparator, for which ECMAScript leaves the sort order implementation
defined), and under the stable keep-first-iff-compare-nonpositive model of
`Array.prototype.sort` the undated tasks come out in reversed original
order. -/
theorem c4_sortTasks_deadline_amended (tasks : List Task) :
    sortTasks tasks "deadline" =
        (sortTasks tasks "deadline").filter (fun t => hasDeadline t) ++
          (sortTasks tasks "deadline").filter (fun t => !hasDeadline t) ∧
    ((sortTasks tasks "deadline").filter (fun t => hasDeadline t)).Pairwise deadlineLE ∧
    (∀ d : Int, (sortTasks tasks "deadline").filter (fun t => t.deadline = some d) =
        tasks.filter (fun t => t.deadline = some d)) ∧
    (sortTasks tasks "deadline").filter (fun t => !hasDeadline t) =
      (tasks.filter (fun t => !hasDeadline t)).reverse := by
  rw [sortTasks_deadline_eq]
  have hp := insertionSort_pairwise_deadlineOrd tasks
  refine ⟨pairwise_deadlineOrd_split _ hp, ?_, fun d => insertionSort_filter_deadline d tasks,
    insertionSort_filter_undated tasks⟩
  have hsub : (List.filter (fun t => hasDeadline t)
      (List.insertionSort (fun a b => cmpDeadline a b ≤ 0) tasks)).Pairwise deadlineOrd :=
    List.Pairwise.sublist (List.filter_sublist _) hp
  exact hsub.imp (fun h => h.2)

/-- Claim C4, counterexample to the claim as stated: two distinct tasks both
lacking a deadline are returned in reversed order by the deadline sort, not in
their original relative order. -/
theorem c4_deadline_tie_counterexample :
    sortTasks [Task.mk "u1" "A" "" "study" "medium" none "pending" 0 none,
        Task.mk "u2" "B" "" "study" "medium" none "pending" 1 none] "deadline" =
      [Task.mk "u2" "B" "" "study" "medium" none "pending" 1 none,
        Task.mk "u1" "A" "" "study" "medium" none "pending" 0 none] ∧
    Task.mk "u1" "A" "" "study" "medium" none "pending" 0 none ≠
      Task.mk "u2" "B" "" "study" "medium" none "pending" 1 none := by
  decide

end StudyTracker
